import Mathlib

/-!
Verification development for the Trello reporting agent
(`models` report store, `trello` board-data client, `agent` scheduler).

The Go code is shallowly embedded:
* `time.Time` becomes `Time`: a civil day count since 1970-01-01 (UTC)
  plus the nanoseconds elapsed within that day.  Calendar conversions
  (`civilFromDays`, `daysFromCivil`) implement the standard proleptic
  Gregorian day-count algorithms, which is what Go's `time` package
  computes for UTC instants.
* the report storage directory becomes `FS`: an association list of
  file names to file contents, plus the set of names the underlying
  filesystem refuses to write (modelling `ioutil.WriteFile` failures).
  A file's content is either a valid JSON serialization of a `Report`
  (JSON round-tripping of the flat `Report` struct is faithful, so the
  serialized form is identified with the record itself), malformed
  bytes, or an unreadable file.
* the remote Trello API and the AI Foundry backend become environments
  (`TrelloEnv`, `AgentEnv`) mapping each request to the response the
  remote side would give, `Except String` mirroring Go's `error`.
-/

deriving instance DecidableEq for Except

/-! ## Time (`time.Time`, restricted to the operations the agent uses) -/

/-- A UTC instant: civil days since 1970-01-01 plus nanoseconds within the day. -/
structure Time where
  days : Int
  nsec : Nat
deriving DecidableEq, Repr

/-- Civil (year, month, day) from a day count since 1970-01-01
(proleptic Gregorian calendar). -/
def civilFromDays (z0 : Int) : Int × Nat × Nat :=
  let z : Int := z0 + 719468
  let era : Int := z.fdiv 146097
  let doe : Nat := (z - era * 146097).toNat
  let yoe : Nat := (doe - doe / 1460 + doe / 36524 - doe / 146096) / 365
  let y : Int := (yoe : Int) + era * 400
  let doy : Nat := doe - (365 * yoe + yoe / 4 - yoe / 100)
  let mp : Nat := (5 * doy + 2) / 153
  let d : Nat := doy - (153 * mp + 2) / 5 + 1
  let m : Nat := if mp < 10 then mp + 3 else mp - 9
  (y + (if m ≤ 2 then 1 else 0), m, d)

/-- Day count since 1970-01-01 from a civil date.  The day component may
exceed the month length; like Go's date normalization, overflow carries
into the following months. -/
def daysFromCivil (y0 : Int) (m d : Nat) : Int :=
  let y : Int := y0 - (if m ≤ 2 then 1 else 0)
  let era : Int := y.fdiv 400
  let yoe : Nat := (y - era * 400).toNat
  let doy : Nat := (153 * (if m > 2 then m - 3 else m + 9) + 2) / 5 + d - 1
  let doe : Nat := yoe * 365 + yoe / 4 - yoe / 100 + doy
  era * 146097 + (doe : Int) - 719468

/-- Convenience constructor: midnight (UTC) of a civil date. -/
def mkDate (y : Int) (m d : Nat) : Time :=
  ⟨daysFromCivil y m d, 0⟩

/-- `t.Truncate(24 * time.Hour)`: rounds down to a multiple of 24h since the
zero time, i.e. midnight UTC of the same day. -/
def truncDay (t : Time) : Time :=
  ⟨t.days, 0⟩

/-- `t.AddDate(years, months, days)` with Go's normalization: months are
normalized first (borrowing years), then day overflow carries linearly. -/
def addDate (t : Time) (years months days : Int) : Time :=
  let c := civilFromDays t.days
  let totalM : Int := (c.1 + years) * 12 + ((c.2.1 : Int) - 1) + months
  let y2 : Int := totalM.fdiv 12
  let m2 : Nat := (totalM.emod 12).toNat + 1
  ⟨daysFromCivil y2 m2 c.2.2 + days, t.nsec⟩

/-- `t.Weekday()` as Go's numbering: Sunday = 0 … Saturday = 6
(1970-01-01 was a Thursday, i.e. 4). -/
def weekday (t : Time) : Int :=
  (t.days + 4).emod 7

/-- `t.Day()`: the day of the month. -/
def dayOfMonth (t : Time) : Nat :=
  (civilFromDays t.days).2.2

/-- Zero-pad a number to two digits (the "01"/"02" format verbs). -/
def pad2 (n : Nat) : String :=
  if n < 10 then "0" ++ toString n else toString n

/-- Zero-pad a number to four digits (the "2006" format verb). -/
def pad4 (n : Nat) : String :=
  if n < 10 then "000" ++ toString n
  else if n < 100 then "00" ++ toString n
  else if n < 1000 then "0" ++ toString n
  else toString n

/-- `t.Format("2006-01-02")`. -/
def fmtDate (t : Time) : String :=
  let c := civilFromDays t.days
  pad4 c.1.toNat ++ "-" ++ pad2 c.2.1 ++ "-" ++ pad2 c.2.2

/-! ## Report model and file-backed store (package `models`) -/

/-- `type ReportType string`. -/
abbrev ReportType := String

/-- The `Weekly` constant. -/
def Weekly : ReportType := "weekly"

/-- The `Monthly` constant. -/
def Monthly : ReportType := "monthly"

/-- The persisted `Report` struct.  (`Type` is a Lean keyword, so the field
is spelled `type`.) -/
structure Report where
  ID : String
  BoardID : String
  BoardName : String
  type : ReportType
  Content : String
  GeneratedAt : Time
  StartDate : Time
  EndDate : Time
deriving DecidableEq, Repr

/-- What a file in the storage directory can hold: a valid JSON
serialization of a report, content that fails to unmarshal as a report,
or a file whose read fails. -/
inductive FileContent where
  | report (r : Report)
  | malformed (s : String)
  | unreadable
deriving DecidableEq, Repr

/-- The storage directory: its files (name, content) and the set of names
the filesystem refuses to write. -/
structure FS where
  files : List (String × FileContent)
  unwritable : List String
deriving DecidableEq, Repr

/-- `filepath.Match` restricted to the metacharacters the store's patterns
can contain: `*` (any run of characters, none of which is a path
separator — file names here never contain one) and `?` (any one
character).  The store builds its patterns from IDs and types, which for
this development are assumed not to contain `[` or `\`.  The matcher
carries an explicit fuel argument so that it is structurally recursive
(and hence computes); every recursive call shrinks the combined length of
pattern and name, so the bound `globMatch` supplies is never exhausted. -/
def globMatchAux : Nat → List Char → List Char → Bool
  | 0, _, _ => false
  | _ + 1, [], [] => true
  | _ + 1, [], _ :: _ => false
  | fuel + 1, p :: ps, [] => p == '*' && globMatchAux fuel ps []
  | fuel + 1, p :: ps, c :: cs =>
    if p == '*' then globMatchAux fuel ps (c :: cs) || globMatchAux fuel (p :: ps) cs
    else if p == '?' then globMatchAux fuel ps cs
    else p == c && globMatchAux fuel ps cs

/-- `globMatchAux` with enough fuel for the whole match. -/
def globMatch (p s : List Char) : Bool :=
  globMatchAux (p.length + s.length + 1) p s

/-- Insert a directory entry into a name-sorted listing. -/
def insertByName (e : String × FileContent) :
    List (String × FileContent) → List (String × FileContent)
  | [] => [e]
  | x :: xs => if x.1 < e.1 then x :: insertByName e xs else e :: x :: xs

/-- `ioutil.ReadDir` / `filepath.Glob` return entries sorted by file name;
this produces that listing from the directory's entry list. -/
def sortByName : List (String × FileContent) → List (String × FileContent)
  | [] => []
  | x :: xs => insertByName x (sortByName xs)

/-- The file name `SaveReport` derives:
`fmt.Sprintf("%s_%s_%s.json", BoardID, Type, GeneratedAt.Format("2006-01-02"))`. -/
def saveFilename (report : Report) : String :=
  report.BoardID ++ "_" ++ report.type ++ "_" ++ fmtDate report.GeneratedAt ++ ".json"

/-- `(s *ReportStore) SaveReport`: marshal the report (which cannot fail for
this flat struct) and write it to the derived file name, creating or
overwriting that file. -/
def SaveReport (s : FS) (report : Report) : Except String FS :=
  let filename := saveFilename report
  if s.unwritable.contains filename then
    .error "error writing report file"
  else
    .ok ⟨s.files.filter (fun e => e.1 != filename) ++ [(filename, FileContent.report report)],
         s.unwritable⟩

/-- The scan loop inside `GetReport`: walk the directory listing, skip
files that cannot be read or do not unmarshal as a report, and return the
first report whose embedded ID matches. -/
def scanForReport (id : String) : List (String × FileContent) → Option Report
  | [] => none
  | e :: rest =>
    match e.2 with
    | .report r => if r.ID == id then some r else scanForReport id rest
    | _ => scanForReport id rest

/-- `(s *ReportStore) GetReport`: scan every file in the storage directory
for the embedded ID; "report not found" if the scan is exhausted. -/
def GetReport (s : FS) (id : String) : Except String Report :=
  match scanForReport id (sortByName s.files) with
  | some r => .ok r
  | none => .error "report not found"

/-- The shared read loop of `GetReportsByBoard` / `GetReportsByType`: read
and unmarshal every matched file, aborting on the first failure. -/
def readReports : List (String × FileContent) → Except String (List Report)
  | [] => .ok []
  | e :: rest =>
    match e.2 with
    | .unreadable => .error "error reading report file"
    | .malformed _ => .error "error unmarshaling report"
    | .report r =>
      match readReports rest with
      | .error err => .error err
      | .ok rs => .ok (r :: rs)

/-- `(s *ReportStore) GetReportsByBoard`: glob `{boardID}_*.json`. -/
def GetReportsByBoard (s : FS) (boardID : String) : Except String (List Report) :=
  let pat := (boardID ++ "_*.json").data
  readReports ((sortByName s.files).filter (fun e => globMatch pat e.1.data))

/-- `(s *ReportStore) GetReportsByType`: glob `*_{type}_*.json`. -/
def GetReportsByType (s : FS) (reportType : ReportType) : Except String (List Report) :=
  let pat := ("*_" ++ reportType ++ "_*.json").data
  readReports ((sortByName s.files).filter (fun e => globMatch pat e.1.data))

/-- `(s *ReportStore) DeleteReport`: glob `*_{id}_*.json`, "report not
found" on zero matches, otherwise remove the first match. -/
def DeleteReport (s : FS) (id : String) : Except String FS :=
  let pat := ("*_" ++ id ++ "_*.json").data
  match (sortByName s.files).filter (fun e => globMatch pat e.1.data) with
  | [] => .error "report not found"
  | m :: _ => .ok ⟨s.files.filter (fun e => e.1 != m.1), s.unwritable⟩

/-! ## Trello board-data client (package `trello`) -/

/-- The `Board` struct. -/
structure Board where
  ID : String
  Name : String
  Description : String
  URL : String
  ShortURL : String
deriving DecidableEq, Repr

/-- The `List` struct (named `TrelloList` since `List` is taken). -/
structure TrelloList where
  ID : String
  Name : String
  Closed : Bool
  BoardID : String
  Pos : Int
deriving DecidableEq, Repr

/-- The `Label` struct. -/
structure Label where
  ID : String
  Name : String
  Color : String
  BoardID : String
deriving DecidableEq, Repr

/-- The `Card` struct. -/
structure Card where
  ID : String
  Name : String
  Description : String
  Closed : Bool
  BoardID : String
  ListID : String
  Due : Option Time
  Labels : List Label
  Members : List String
  Created : Time
deriving DecidableEq, Repr

/-- The `Member` struct. -/
structure Member where
  ID : String
  FullName : String
  Username : String
  AvatarURL : String
deriving DecidableEq, Repr

/-- An activity event is a JSON object (`map[string]interface{}`) treated
opaquely by the client; modelled as a key/value list with opaque values. -/
abbrev Activity := List (String × String)

/-- The aggregate `GetBoardData` returns: a `map[string]interface{}` with
keys "board", "lists", "cards", "members", "activities"; modelled as a
structure with those five fields (the `convertToMap` JSON re-encoding of
these concrete struct types cannot fail). -/
structure BoardData where
  board : Board
  lists : List TrelloList
  cards : List Card
  members : List Member
  activities : List Activity
deriving DecidableEq, Repr

/-- The remote Trello API, as the responses it would give to the client's
five request kinds (`Except String` mirrors Go's `error` returns, covering
both transport failures and non-2xx responses). -/
structure TrelloEnv where
  boards : Except String (List Board)
  boardDetails : String → Except String Board
  lists : String → Except String (List TrelloList)
  cards : String → Except String (List Card)
  members : String → Except String (List Member)
  activity : String → Time → Except String (List Activity)

/-- `(c *Client) GetBoardData`: fetch details, lists, cards and members
(each failure fatal, propagated unchanged), then activity — whose failure
is logged and replaced by an empty slice. -/
def GetBoardData (env : TrelloEnv) (boardID : String) (since : Time) :
    Except String BoardData :=
  match env.boardDetails boardID with
  | .error e => .error e
  | .ok board =>
  match env.lists boardID with
  | .error e => .error e
  | .ok lists =>
  match env.cards boardID with
  | .error e => .error e
  | .ok cards =>
  match env.members boardID with
  | .error e => .error e
  | .ok members =>
  let activities :=
    match env.activity boardID since with
    | .ok acts => acts
    | .error _ => []
  .ok ⟨board, lists, cards, members, activities⟩

/-! ## Scheduled report agent (package `agent`) -/

/-- The `ReportSchedule` struct. -/
structure ReportSchedule where
  Weekly : Bool
  Monthly : Bool
deriving DecidableEq, Repr

/-- The agent's collaborators: the Trello client environment and the AI
Foundry `GenerateReport(boardData, reportType)` backend. -/
structure AgentEnv where
  trello : TrelloEnv
  gen : BoardData → ReportType → Except String String

/-- The derived report identifier
`fmt.Sprintf("%s_%s_%s", boardID, reportType, t.Format("2006-01-02"))`,
as written in both `generateReport` and `GenerateReportOnDemand`. -/
def mkReportID (boardID : String) (reportType : ReportType) (t : Time) : String :=
  boardID ++ "_" ++ reportType ++ "_" ++ fmtDate t

/-- `(a *Agent) generateReport`: fetch board data, generate the narrative,
build the report and save it.  Every failure is logged and swallowed (the
function returns nothing), leaving the store unchanged.  The `time.Now()`
stamped into `GeneratedAt` is modelled as the cycle instant `now`. -/
def generateReport (env : AgentEnv) (fs : FS) (boardID boardName : String)
    (reportType : ReportType) (startDate endDate now : Time) : FS :=
  match GetBoardData env.trello boardID startDate with
  | .error _ => fs
  | .ok boardData =>
    match env.gen boardData reportType with
    | .error _ => fs
    | .ok content =>
      let report : Report :=
        { ID := mkReportID boardID reportType endDate
          BoardID := boardID
          BoardName := boardName
          type := reportType
          Content := content
          GeneratedAt := now
          StartDate := startDate
          EndDate := endDate }
      match SaveReport fs report with
      | .error _ => fs
      | .ok fs2 => fs2

/-- The per-board loop shared by `generateWeeklyReports` and
`generateMonthlyReports`: `for _, board := range boards { a.generateReport(...) }`. -/
def runBoards (env : AgentEnv) (fs : FS) (boards : List Board)
    (reportType : ReportType) (startDate endDate now : Time) : FS :=
  boards.foldl (fun acc b => generateReport env acc b.ID b.Name reportType startDate endDate now) fs

/-- `(a *Agent) generateWeeklyReports`: window = [end − 7 days, end] with
end = `now.Truncate(24h)`; a `GetBoards` failure is logged and aborts the
pass (no boards processed). -/
def generateWeeklyReports (env : AgentEnv) (fs : FS) (now : Time) : FS :=
  let endDate := truncDay now
  let startDate := addDate endDate 0 0 (-7)
  match env.trello.boards with
  | .error _ => fs
  | .ok boards => runBoards env fs boards Weekly startDate endDate now

/-- `(a *Agent) generateMonthlyReports`: window = [end − 1 month, end] with
end = `now.Truncate(24h)`. -/
def generateMonthlyReports (env : AgentEnv) (fs : FS) (now : Time) : FS :=
  let endDate := truncDay now
  let startDate := addDate endDate 0 (-1) 0
  match env.trello.boards with
  | .error _ => fs
  | .ok boards => runBoards env fs boards Monthly startDate endDate now

/-- `(a *Agent) checkAndGenerateReports`: run the weekly pass when the
weekly flag is set and `now` is a Monday, then the monthly pass when the
monthly flag is set and `now` is the 1st of the month.  Besides the
resulting store, the model returns the list of report types whose
generation pass ran, recording which branches fired. -/
def checkAndGenerateReports (env : AgentEnv) (sched : ReportSchedule) (fs : FS)
    (now : Time) : FS × List ReportType :=
  let p1 : FS × List ReportType :=
    if sched.Weekly && (weekday now == 1) then (generateWeeklyReports env fs now, [Weekly])
    else (fs, [])
  let p2 : FS × List ReportType :=
    if sched.Monthly && (dayOfMonth now == 1) then (generateMonthlyReports env p1.1 now, [Monthly])
    else (p1.1, [])
  (p2.1, p1.2 ++ p2.2)

/-- `(a *Agent) GenerateReportOnDemand`: board details, window anchored at
the precise instant `now` (end = `now`, start = `now` − 7 days for weekly,
otherwise `now` − 1 month), then data, narrative, save; every failure is
wrapped and propagated, and no partial report is persisted. -/
def GenerateReportOnDemand (env : AgentEnv) (fs : FS) (boardID : String)
    (reportType : ReportType) (now : Time) : Except String (FS × Report) :=
  match env.trello.boardDetails boardID with
  | .error e => .error ("error getting board details: " ++ e)
  | .ok board =>
    let startDate := if reportType == Weekly then addDate now 0 0 (-7) else addDate now 0 (-1) 0
    match GetBoardData env.trello boardID startDate with
    | .error e => .error ("error getting board data: " ++ e)
    | .ok boardData =>
      match env.gen boardData reportType with
      | .error e => .error ("error generating report: " ++ e)
      | .ok content =>
        let report : Report :=
          { ID := mkReportID boardID reportType now
            BoardID := boardID
            BoardName := board.Name
            type := reportType
            Content := content
            GeneratedAt := now
            StartDate := startDate
            EndDate := now }
        match SaveReport fs report with
        | .error e => .error ("error saving report: " ++ e)
        | .ok fs2 => .ok (fs2, report)

/-! ## Agent start/stop lifecycle

`Start` and `Stop` run under `a.mutex`, so their bodies are atomic
transitions on the agent's state.  The state tracked is the `running`
flag together with the number of live background `run` goroutines
(`Start` spawns one via `a.wg.Add(1); go a.run()`; `Stop` closes the stop
channel and `wg.Wait()`s until the goroutine has exited). -/

/-- The agent's lifecycle state: the `running` flag and the number of live
background loops. -/
structure AgentLife where
  running : Bool
  loops : Nat
deriving DecidableEq, Repr

/-- The state `NewAgent` constructs: stopped, no background loop. -/
def initialAgent : AgentLife := ⟨false, 0⟩

/-- `(a *Agent) Start`: error "agent is already running" when running,
otherwise set `running` and spawn one background loop. -/
def startAgent (a : AgentLife) : Except String AgentLife :=
  if a.running then .error "agent is already running"
  else .ok ⟨true, a.loops + 1⟩

/-- `(a *Agent) Stop`: error "agent is not running" when stopped, otherwise
signal the loop, wait for it to exit, and clear `running`. -/
def stopAgent (a : AgentLife) : Except String AgentLife :=
  if a.running then .ok ⟨false, a.loops - 1⟩
  else .error "agent is not running"

/-- A caller-visible lifecycle call. -/
inductive AgentOp where
  | start
  | stop
deriving DecidableEq, Repr

/-- The state after a lifecycle call: on error the state is unchanged. -/
def applyOp (a : AgentLife) : AgentOp → AgentLife
  | .start => match startAgent a with
    | .ok a2 => a2
    | .error _ => a
  | .stop => match stopAgent a with
    | .ok a2 => a2
    | .error _ => a

/-- The agent state reached from construction by a sequence of
`Start`/`Stop` calls. -/
def runOps (ops : List AgentOp) : AgentLife :=
  ops.foldl applyOp initialAgent

/-! ## Auxiliary decidable string predicates used to state claims -/

/-- Whether `needle` occurs as a contiguous segment of `hay`. -/
def containsSeg (needle : List Char) : List Char → Bool
  | [] => needle.isEmpty
  | c :: cs => needle.isPrefixOf (c :: cs) || containsSeg needle cs

/-! ## Claim fixtures (concrete inputs used by witnesses) -/

/-- A concrete saved report for the round-trip witness. -/
def rC1 : Report :=
  { ID := "B1_weekly_2024-01-01", BoardID := "B1", BoardName := "Engineering",
    type := Weekly, Content := "All good.", GeneratedAt := mkDate 2024 1 1,
    StartDate := mkDate 2023 12 25, EndDate := mkDate 2024 1 1 }

/-- A store holding one unrelated malformed file. -/
def fsC1 : FS := ⟨[("notes.txt", FileContent.malformed "junk")], []⟩

/-- The store after saving `rC1` into `fsC1`. -/
def fsC1s : FS :=
  ⟨[("notes.txt", FileContent.malformed "junk"),
    ("B1_weekly_2024-01-01.json", FileContent.report rC1)], []⟩

/-- First generation of the day for board B2. -/
def rC2a : Report :=
  { ID := "B2_weekly_2024-01-01", BoardID := "B2", BoardName := "Ops",
    type := Weekly, Content := "first run", GeneratedAt := mkDate 2024 1 1,
    StartDate := mkDate 2023 12 25, EndDate := mkDate 2024 1 1 }

/-- Second generation, same board/type/day, one hour later, new content. -/
def rC2b : Report :=
  { rC2a with Content := "second run", GeneratedAt := ⟨(mkDate 2024 1 1).days, 3600000000000⟩ }

/-- The store after the first save. -/
def fsC2s : FS := ⟨[("B2_weekly_2024-01-01.json", FileContent.report rC2a)], []⟩

/-- The report whose full ID `DeleteReport` is asked to delete. -/
def rC3 : Report :=
  { ID := "B1_weekly_2024-01-01", BoardID := "B1", BoardName := "Engineering",
    type := Weekly, Content := "weekly status", GeneratedAt := mkDate 2024 1 1,
    StartDate := mkDate 2023 12 25, EndDate := mkDate 2024 1 1 }

/-- The store holding exactly the file `SaveReport` wrote for `rC3`. -/
def fsC3 : FS := ⟨[("B1_weekly_2024-01-01.json", FileContent.report rC3)], []⟩

/-- A first board, whose sub-fetches the failing environments reject. -/
def bA : Board :=
  { ID := "A", Name := "Alpha", Description := "", URL := "", ShortURL := "" }

/-- A second board, whose sub-fetches succeed. -/
def bB : Board :=
  { ID := "B", Name := "Beta", Description := "", URL := "", ShortURL := "" }

/-- A remote environment where everything succeeds except the activity
fetch. -/
def envC4 : TrelloEnv :=
  { boards := .ok [bA]
    boardDetails := fun _ => .ok bA
    lists := fun _ => .ok []
    cards := fun _ => .ok []
    members := fun _ => .ok []
    activity := fun _ _ => .error "activity fetch failed" }

/-- An agent environment with two boards, A whose details fetch fails and
B for which the whole pipeline succeeds. -/
def envAB : AgentEnv :=
  { trello :=
      { boards := .ok [bA, bB]
        boardDetails := fun bid => if bid == "B" then .ok bB else .error "remote api error"
        lists := fun _ => .ok []
        cards := fun _ => .ok []
        members := fun _ => .ok []
        activity := fun _ _ => .ok [] }
    gen := fun _ _ => .ok "narrative text" }

/-- Tuesday 2024-10-15: a Tuesday that is also the 15th of the month. -/
def tTue : Time := mkDate 2024 10 15

/-- Monday 2024-10-14. -/
def tMon : Time := mkDate 2024 10 14

/-- The report the on-demand witness generates for board B at `tTue`. -/
def rC9 : Report :=
  { ID := "B_weekly_2024-10-15", BoardID := "B", BoardName := "Beta", type := Weekly,
    Content := "narrative text", GeneratedAt := tTue,
    StartDate := addDate tTue 0 0 (-7), EndDate := tTue }

/-- The store after the on-demand witness save. -/
def fsC9s : FS := ⟨[("B_weekly_2024-10-15.json", FileContent.report rC9)], []⟩

/-- A report sitting among junk files for the scan-tolerance witness. -/
def rC8 : Report :=
  { ID := "B3_monthly_2024-02-01", BoardID := "B3", BoardName := "QA",
    type := Monthly, Content := "monthly status", GeneratedAt := mkDate 2024 2 1,
    StartDate := mkDate 2024 1 1, EndDate := mkDate 2024 2 1 }

/-- A directory holding an empty file, an unreadable file and one report. -/
def fsC8 : FS :=
  ⟨[("empty.json", FileContent.malformed ""),
    ("locked.json", FileContent.unreadable),
    ("B3_monthly_2024-02-01.json", FileContent.report rC8)], []⟩

/-- A directory whose files neither start with board B9 nor contain a
quarterly type segment. -/
def fsC10 : FS :=
  ⟨[("A1_weekly_2024-01-01.json", FileContent.malformed "x"),
    ("keep.txt", FileContent.unreadable)], []⟩

/-! ## Helper lemmas about the store -/

theorem mem_insertByName {x e : String × FileContent} {l : List (String × FileContent)} :
    x ∈ insertByName e l ↔ x = e ∨ x ∈ l := by
  induction l with
  | nil => simp [insertByName]
  | cons y ys ih =>
    simp only [insertByName]
    split
    · simp only [List.mem_cons, ih]
      tauto
    · simp only [List.mem_cons]

theorem mem_sortByName {x : String × FileContent} {l : List (String × FileContent)} :
    x ∈ sortByName l ↔ x ∈ l := by
  induction l with
  | nil => simp [sortByName]
  | cons y ys ih => simp [sortByName, mem_insertByName, ih]

theorem scanForReport_eq {l : List (String × FileContent)} {id : String} {r : Report}
    (hex : ∃ e ∈ l, e.2 = FileContent.report r) (hid : r.ID = id)
    (huniq : ∀ e ∈ l, ∀ r2, e.2 = FileContent.report r2 → r2.ID = id → r2 = r) :
    scanForReport id l = some r := by
  induction l with
  | nil => obtain ⟨e, he, _⟩ := hex; cases he
  | cons e rest ih =>
    cases hc : e.2 with
    | report r2 =>
      simp only [scanForReport, hc]
      by_cases hr : r2.ID = id
      · have hr2 : r2 = r := huniq e (List.mem_cons_self e rest) r2 hc hr
        subst hr2
        simp [hr]
      · rw [if_neg (by simp [hr])]
        apply ih
        · obtain ⟨e2, he2, hee⟩ := hex
          rcases List.mem_cons.mp he2 with h | h
          · subst h
            rw [hc] at hee
            injection hee with h3
            exact absurd (h3 ▸ hid) hr
          · exact ⟨e2, h, hee⟩
        · exact fun e2 he2 => huniq e2 (List.mem_cons_of_mem _ he2)
    | malformed s =>
      simp only [scanForReport, hc]
      apply ih
      · obtain ⟨e2, he2, hee⟩ := hex
        rcases List.mem_cons.mp he2 with h | h
        · subst h; rw [hc] at hee; cases hee
        · exact ⟨e2, h, hee⟩
      · exact fun e2 he2 => huniq e2 (List.mem_cons_of_mem _ he2)
    | unreadable =>
      simp only [scanForReport, hc]
      apply ih
      · obtain ⟨e2, he2, hee⟩ := hex
        rcases List.mem_cons.mp he2 with h | h
        · subst h; rw [hc] at hee; cases hee
        · exact ⟨e2, h, hee⟩
      · exact fun e2 he2 => huniq e2 (List.mem_cons_of_mem _ he2)

theorem SaveReport_ok_unwritable {fs fs2 : FS} {r : Report} (h : SaveReport fs r = .ok fs2) :
    fs2.unwritable = fs.unwritable := by
  simp only [SaveReport] at h
  split at h
  · cases h
  · cases h; rfl

theorem SaveReport_ok_files {fs fs2 : FS} {r : Report} (h : SaveReport fs r = .ok fs2) :
    fs2.files = fs.files.filter (fun e => e.1 != saveFilename r)
      ++ [(saveFilename r, FileContent.report r)] := by
  simp only [SaveReport] at h
  split at h
  · cases h
  · cases h; rfl

theorem SaveReport_not_unwritable {fs fs2 : FS} {r : Report} (h : SaveReport fs r = .ok fs2) :
    fs.unwritable.contains (saveFilename r) = false := by
  simp only [SaveReport] at h
  split at h
  · cases h
  · next hcond => simpa using hcond

theorem SaveReport_ok_of_writable {fs : FS} {r : Report}
    (h : fs.unwritable.contains (saveFilename r) = false) :
    SaveReport fs r = .ok ⟨fs.files.filter (fun e => e.1 != saveFilename r)
      ++ [(saveFilename r, FileContent.report r)], fs.unwritable⟩ := by
  have h2 : saveFilename r ∉ fs.unwritable := by simpa using h
  simp [SaveReport, h2]

theorem fmtDate_days {t1 t2 : Time} (h : t1.days = t2.days) : fmtDate t1 = fmtDate t2 := by
  unfold fmtDate; rw [h]

theorem filter_idem {α : Type} (p : α → Bool) (l : List α) :
    (l.filter p).filter p = l.filter p := by
  induction l with
  | nil => rfl
  | cons x xs ih => cases h : p x <;> simp [List.filter_cons, h, ih]

/-! ## C1: store round-trip -/

/-- C1: Store round-trip — saving a valid report with SaveReport and then
looking it up by its ID with GetReport returns a report equal to it in all
fields (the store may already hold arbitrary other files, as long as no
other file carries the same embedded ID under a different name). -/
theorem store_roundtrip {fs fs2 : FS} {r : Report}
    (hsave : SaveReport fs r = .ok fs2)
    (hnoclash : ∀ e ∈ fs.files, ∀ r2, e.2 = FileContent.report r2 → r2.ID = r.ID →
      e.1 = saveFilename r) :
    GetReport fs2 r.ID = .ok r := by
  have hfiles := SaveReport_ok_files hsave
  unfold GetReport
  rw [scanForReport_eq (r := r) ?hex rfl ?huniq]
  case hex =>
    refine ⟨(saveFilename r, FileContent.report r), ?_, rfl⟩
    rw [mem_sortByName, hfiles]
    exact List.mem_append_right _ (by simp)
  case huniq =>
    intro e he r2 he2 hid2
    rw [mem_sortByName, hfiles] at he
    rcases List.mem_append.mp he with h | h
    · rcases List.mem_filter.mp h with ⟨hmem, hcond⟩
      have hname := hnoclash e hmem r2 he2 hid2
      simp [hname] at hcond
    · rw [List.mem_singleton] at h
      subst h
      simp only at he2
      injection he2 with h3
      exact h3.symm

/-- C1 witness: the round-trip on a concrete store containing one junk file. -/
theorem store_roundtrip_witness : GetReport fsC1s rC1.ID = .ok rC1 :=
  store_roundtrip (by decide : SaveReport fsC1 rC1 = .ok fsC1s)
    (by
      intro e he r2 h2 hid
      simp only [fsC1, List.mem_singleton] at he
      subst he
      simp at h2)

/-! ## C2: ID determinism and same-day overwrite -/

/-- C2: ID determinism and same-day overwrite — the derived identifier is a
function of (boardID, type, calendar day) only, and a second save for the
same (boardID, type, day) triple derives the same file name, replacing the
earlier file rather than adding a second one. -/
theorem id_determinism_overwrite :
    (∀ (B : String) (T : ReportType) (t1 t2 : Time), t1.days = t2.days →
      mkReportID B T t1 = mkReportID B T t2) ∧
    (∀ (fs fs1 : FS) (r1 r2 : Report),
      r1.BoardID = r2.BoardID → r1.type = r2.type →
      r1.GeneratedAt.days = r2.GeneratedAt.days →
      SaveReport fs r1 = .ok fs1 →
      saveFilename r2 = saveFilename r1 ∧
      ∃ fs2, SaveReport fs1 r2 = .ok fs2 ∧
        fs2.files.length = fs1.files.length ∧
        (saveFilename r1, FileContent.report r2) ∈ fs2.files ∧
        ∀ c, (saveFilename r1, c) ∈ fs2.files → c = FileContent.report r2) := by
  constructor
  · intro B T t1 t2 h
    unfold mkReportID
    rw [fmtDate_days h]
  · intro fs fs1 r1 r2 hb ht hd hsave
    have hname : saveFilename r2 = saveFilename r1 := by
      unfold saveFilename
      rw [← hb, ← ht, ← fmtDate_days hd]
    refine ⟨hname, ?_⟩
    have hw1 : fs1.unwritable.contains (saveFilename r2) = false := by
      rw [hname, SaveReport_ok_unwritable hsave]
      exact SaveReport_not_unwritable hsave
    have hfilter : fs1.files.filter (fun e => e.1 != saveFilename r1)
        = fs.files.filter (fun e => e.1 != saveFilename r1) := by
      rw [SaveReport_ok_files hsave, List.filter_append, filter_idem]
      simp
    refine ⟨_, SaveReport_ok_of_writable hw1, ?_, ?_, ?_⟩
    · simp only [hname, hfilter]
      rw [List.length_append, SaveReport_ok_files hsave, List.length_append]
      rfl
    · simp [hname]
    · intro c hc
      simp only [hname] at hc
      rcases List.mem_append.mp hc with h | h
      · have hcond := (List.mem_filter.mp h).2
        simp at hcond
      · rw [List.mem_singleton] at h
        simpa using h

/-- C2 witness: regenerating board B2's weekly report later the same day
overwrites the morning file. -/
theorem id_determinism_overwrite_witness :
    saveFilename rC2b = saveFilename rC2a ∧
    ∃ fs2, SaveReport fsC2s rC2b = .ok fs2 ∧
      fs2.files.length = fsC2s.files.length ∧
      (saveFilename rC2a, FileContent.report rC2b) ∈ fs2.files ∧
      ∀ c, (saveFilename rC2a, c) ∈ fs2.files → c = FileContent.report rC2b :=
  id_determinism_overwrite.2 ⟨[], []⟩ fsC2s rC2a rC2b (by decide) (by decide) (by decide)
    (by decide)

/-! ## C3: delete by ID -/

/-- C3: Delete behaviour at the failing input — after saving the report
whose ID is B1_weekly_2024-01-01 (file B1_weekly_2024-01-01.json, which
GetReport finds), DeleteReport on that very ID still answers "report not
found", because its pattern requires characters around the ID that the
derived file name does not have; on an empty store the same call also
answers "report not found". -/
theorem delete_by_id_never_matches :
    SaveReport ⟨[], []⟩ rC3 = .ok fsC3 ∧
    GetReport fsC3 "B1_weekly_2024-01-01" = .ok rC3 ∧
    DeleteReport fsC3 "B1_weekly_2024-01-01" = .error "report not found" ∧
    DeleteReport ⟨[], []⟩ "B1_weekly_2024-01-01" = .error "report not found" :=
  ⟨by decide, by decide, by decide, by decide⟩

/-! ## C4: snapshot degrade asymmetry -/

/-- C4: Snapshot degrade asymmetry — GetBoardData succeeds and substitutes
an empty activity list when only the activity sub-fetch fails, and returns
an error (no snapshot) whenever the board-details, lists, cards, or
members sub-fetch fails. -/
theorem snapshot_degrade (env : TrelloEnv) (boardID : String) (since : Time) :
    (∀ b ls cs ms e, env.boardDetails boardID = .ok b → env.lists boardID = .ok ls →
      env.cards boardID = .ok cs → env.members boardID = .ok ms →
      env.activity boardID since = .error e →
      GetBoardData env boardID since = .ok ⟨b, ls, cs, ms, []⟩) ∧
    (∀ e, (env.boardDetails boardID = .error e ∨ env.lists boardID = .error e ∨
      env.cards boardID = .error e ∨ env.members boardID = .error e) →
      ∃ e2, GetBoardData env boardID since = .error e2) := by
  constructor
  · intro b ls cs ms e hb hl hc hm ha
    simp [GetBoardData, hb, hl, hc, hm, ha]
  · intro e he
    unfold GetBoardData
    cases hb : env.boardDetails boardID with
    | error e2 => exact ⟨e2, rfl⟩
    | ok b =>
      cases hl : env.lists boardID with
      | error e2 => exact ⟨e2, rfl⟩
      | ok ls =>
        cases hc : env.cards boardID with
        | error e2 => exact ⟨e2, rfl⟩
        | ok cs =>
          cases hm : env.members boardID with
          | error e2 => exact ⟨e2, rfl⟩
          | ok ms =>
            exfalso
            rcases he with h | h | h | h
            · rw [hb] at h; cases h
            · rw [hl] at h; cases h
            · rw [hc] at h; cases h
            · rw [hm] at h; cases h

/-- C4 witness: with every structural fetch succeeding and the activity
fetch failing, the snapshot succeeds with an empty activity list. -/
theorem snapshot_degrade_witness :
    GetBoardData envC4 "A" (mkDate 2024 1 1) = .ok ⟨bA, [], [], [], []⟩ :=
  (snapshot_degrade envC4 "A" (mkDate 2024 1 1)).1 bA [] [] [] "activity fetch failed"
    (by decide) (by decide) (by decide) (by decide) (by decide)

/-! ## C5: due-date policy -/

/-- C5: Due-date policy — a due-check cycle runs the weekly pass exactly
when the weekly flag is enabled and the date is a Monday, and the monthly
pass exactly when the monthly flag is enabled and the date is the 1st of
the month; on a Tuesday the 15th with both flags enabled, neither runs. -/
theorem due_date_policy (env : AgentEnv) (sched : ReportSchedule) (fs : FS) (now : Time) :
    (Weekly ∈ (checkAndGenerateReports env sched fs now).2 ↔
      sched.Weekly = true ∧ weekday now = 1) ∧
    (Monthly ∈ (checkAndGenerateReports env sched fs now).2 ↔
      sched.Monthly = true ∧ dayOfMonth now = 1) ∧
    (weekday now = 2 → dayOfMonth now = 15 →
      (checkAndGenerateReports env ⟨true, true⟩ fs now).2 = []) := by
  refine ⟨?_, ?_, ?_⟩
  · by_cases h1 : sched.Weekly = true ∧ weekday now = 1 <;>
      by_cases h2 : sched.Monthly = true ∧ dayOfMonth now = 1 <;>
        simp [checkAndGenerateReports, h1, h2, Weekly, Monthly]
  · by_cases h1 : sched.Weekly = true ∧ weekday now = 1 <;>
      by_cases h2 : sched.Monthly = true ∧ dayOfMonth now = 1 <;>
        simp [checkAndGenerateReports, h1, h2, Weekly, Monthly]
  · intro hwd hdom
    simp [checkAndGenerateReports, hwd, hdom]

/-- C5 witness: on Tuesday 2024-10-15 with both flags enabled, no
generation pass runs. -/
theorem due_date_policy_witness :
    (checkAndGenerateReports envAB ⟨true, true⟩ ⟨[], []⟩ tTue).2 = [] :=
  (due_date_policy envAB ⟨true, true⟩ ⟨[], []⟩ tTue).2.2 (by decide) (by decide)

/-! ## C6: start/stop state machine -/

theorem agentInv_foldl : ∀ (ops : List AgentOp) (a : AgentLife),
    a.loops = (if a.running then 1 else 0) →
    (ops.foldl applyOp a).loops = if (ops.foldl applyOp a).running then 1 else 0 := by
  intro ops
  induction ops with
  | nil => intro a ha; exact ha
  | cons op rest ih =>
    intro a ha
    rw [List.foldl_cons]
    apply ih
    cases op with
    | start =>
      by_cases h : a.running
      · simp [applyOp, startAgent, h, ha]
      · simp [applyOp, startAgent, h]
        simp [h] at ha
        simp [ha]
    | stop =>
      by_cases h : a.running
      · simp [applyOp, stopAgent, h]
        simp [h] at ha
        simp [ha]
      · simp [applyOp, stopAgent, h, ha]

/-- C6: Start/stop state machine — from construction, any sequence of
Start/Stop calls leaves exactly one background loop live iff the agent is
running (and none otherwise); from a stopped state Start succeeds and
spawns the single loop while Stop reports "agent is not running"; from a
running state Start reports "agent is already running" (exactly one loop
stays live) while Stop succeeds, leaving no loop. -/
theorem start_stop_lifecycle (ops : List AgentOp) :
    ((runOps ops).loops = if (runOps ops).running then 1 else 0) ∧
    ((runOps ops).running = false →
      startAgent (runOps ops) = .ok ⟨true, 1⟩ ∧
      stopAgent (runOps ops) = .error "agent is not running") ∧
    ((runOps ops).running = true →
      (runOps ops).loops = 1 ∧
      startAgent (runOps ops) = .error "agent is already running" ∧
      stopAgent (runOps ops) = .ok ⟨false, 0⟩) := by
  have hinv : (runOps ops).loops = if (runOps ops).running then 1 else 0 :=
    agentInv_foldl ops initialAgent rfl
  refine ⟨hinv, ?_, ?_⟩
  · intro h
    rw [h] at hinv
    simp at hinv
    constructor
    · simp [startAgent, h, hinv]
    · simp [stopAgent, h]
  · intro h
    rw [h] at hinv
    simp at hinv
    refine ⟨hinv, ?_, ?_⟩
    · simp [startAgent, h]
    · simp [stopAgent, h, hinv]

/-- C6 witness: on the freshly constructed agent Start succeeds and Stop
reports "agent is not running"; after one Start, a second Start reports
"agent is already running" with exactly one loop live, and Stop succeeds. -/
theorem start_stop_lifecycle_witness :
    (startAgent (runOps []) = .ok ⟨true, 1⟩ ∧
      stopAgent (runOps []) = .error "agent is not running") ∧
    ((runOps [AgentOp.start]).loops = 1 ∧
      startAgent (runOps [AgentOp.start]) = .error "agent is already running" ∧
      stopAgent (runOps [AgentOp.start]) = .ok ⟨false, 0⟩) :=
  ⟨(start_stop_lifecycle []).2.1 (by decide),
   (start_stop_lifecycle [AgentOp.start]).2.2 (by decide)⟩

/-! ## Helper lemmas about the generation cycle -/

theorem generateReport_unwritable (env : AgentEnv) (fs : FS) (bid bn : String)
    (ty : ReportType) (s e now : Time) :
    (generateReport env fs bid bn ty s e now).unwritable = fs.unwritable := by
  simp only [generateReport]
  split
  · rfl
  · split
    · rfl
    · split
      · rfl
      · next fs2 heq => exact SaveReport_ok_unwritable heq

theorem generateReport_mem {env : AgentEnv} {fs : FS} {bid bn : String} {ty : ReportType}
    {s e now : Time} {nm : String} {c : FileContent}
    (hm : (nm, c) ∈ fs.files)
    (hne : nm ≠ bid ++ "_" ++ ty ++ "_" ++ fmtDate now ++ ".json") :
    (nm, c) ∈ (generateReport env fs bid bn ty s e now).files := by
  simp only [generateReport]
  split
  · exact hm
  · split
    · exact hm
    · split
      · exact hm
      · next fs2 heq =>
        rw [SaveReport_ok_files heq]
        apply List.mem_append_left
        rw [List.mem_filter]
        refine ⟨hm, ?_⟩
        simpa [saveFilename] using hne

theorem runBoards_unwritable (env : AgentEnv) (boards : List Board) (fs : FS)
    (ty : ReportType) (s e now : Time) :
    (runBoards env fs boards ty s e now).unwritable = fs.unwritable := by
  induction boards generalizing fs with
  | nil => rfl
  | cons b rest ih =>
    have h2 := ih (generateReport env fs b.ID b.Name ty s e now)
    simp only [runBoards] at h2 ⊢
    rw [List.foldl_cons, h2, generateReport_unwritable]

theorem runBoards_mem {env : AgentEnv} {boards : List Board} {fs : FS} {ty : ReportType}
    {s e now : Time} {nm : String} {c : FileContent}
    (hm : (nm, c) ∈ fs.files)
    (hne : ∀ b ∈ boards, nm ≠ b.ID ++ "_" ++ ty ++ "_" ++ fmtDate now ++ ".json") :
    (nm, c) ∈ (runBoards env fs boards ty s e now).files := by
  induction boards generalizing fs with
  | nil => exact hm
  | cons b rest ih =>
    have h2 := @ih (generateReport env fs b.ID b.Name ty s e now)
      (generateReport_mem hm (hne b (List.mem_cons_self b rest)))
      (fun b2 hb2 => hne b2 (List.mem_cons_of_mem _ hb2))
    simpa only [runBoards, List.foldl_cons] using h2

theorem generateReport_success {env : AgentEnv} {fs : FS} {bid bn : String}
    {ty : ReportType} {s e now : Time} {bd : BoardData} {content : String}
    (hf : GetBoardData env.trello bid s = .ok bd)
    (hg : env.gen bd ty = .ok content)
    (hw : fs.unwritable.contains (bid ++ "_" ++ ty ++ "_" ++ fmtDate now ++ ".json") = false) :
    generateReport env fs bid bn ty s e now =
      ⟨fs.files.filter (fun en => en.1 != bid ++ "_" ++ ty ++ "_" ++ fmtDate now ++ ".json")
        ++ [(bid ++ "_" ++ ty ++ "_" ++ fmtDate now ++ ".json",
            FileContent.report
              { ID := mkReportID bid ty e, BoardID := bid, BoardName := bn,
                type := ty, Content := content, GeneratedAt := now,
                StartDate := s, EndDate := e })],
       fs.unwritable⟩ := by
  simp only [generateReport, hf, hg]
  rw [SaveReport_ok_of_writable (by simpa [saveFilename] using hw)]
  simp [saveFilename]

theorem runBoards_persists {env : AgentEnv} {fs : FS} {pre post : List Board} {b : Board}
    {ty : ReportType} {s e now : Time} {bd : BoardData} {content : String}
    (hf : GetBoardData env.trello b.ID s = .ok bd)
    (hg : env.gen bd ty = .ok content)
    (hw : fs.unwritable.contains (b.ID ++ "_" ++ ty ++ "_" ++ fmtDate now ++ ".json") = false)
    (hpost : ∀ b2 ∈ post, b2.ID ≠ b.ID) :
    (b.ID ++ "_" ++ ty ++ "_" ++ fmtDate now ++ ".json",
     FileContent.report
       { ID := mkReportID b.ID ty e, BoardID := b.ID, BoardName := b.Name,
         type := ty, Content := content, GeneratedAt := now, StartDate := s, EndDate := e })
      ∈ (runBoards env fs (pre ++ b :: post) ty s e now).files := by
  have hsplit : runBoards env fs (pre ++ b :: post) ty s e now
      = runBoards env
          (generateReport env (runBoards env fs pre ty s e now) b.ID b.Name ty s e now)
          post ty s e now := by
    simp only [runBoards, List.foldl_append, List.foldl_cons]
  rw [hsplit]
  have hw1 : (runBoards env fs pre ty s e now).unwritable.contains
      (b.ID ++ "_" ++ ty ++ "_" ++ fmtDate now ++ ".json") = false := by
    rw [runBoards_unwritable]; exact hw
  apply runBoards_mem
  · rw [generateReport_success hf hg hw1]
    exact List.mem_append_right _ (List.mem_singleton.mpr rfl)
  · intro b2 hb2 heq
    apply hpost b2 hb2
    have h2 := congrArg String.data heq
    simp only [String.data_append, List.append_assoc] at h2
    exact (String.ext (List.append_cancel_right h2)).symm

/-! ## C7: per-board failure isolation -/

/-- C7: Per-board failure isolation — whatever happens to the boards
listed before b (their fetch, generation, or store steps may all fail),
board b is still processed by the weekly pass and, its own pipeline
succeeding, its report is persisted in the resulting store. -/
theorem board_failure_isolation (env : AgentEnv) (fs : FS) (now : Time)
    (pre post : List Board) (b : Board) (bd : BoardData) (content : String)
    (hboards : env.trello.boards = .ok (pre ++ b :: post))
    (hf : GetBoardData env.trello b.ID (addDate (truncDay now) 0 0 (-7)) = .ok bd)
    (hg : env.gen bd Weekly = .ok content)
    (hw : fs.unwritable.contains (b.ID ++ "_" ++ Weekly ++ "_" ++ fmtDate now ++ ".json") = false)
    (hpost : ∀ b2 ∈ post, b2.ID ≠ b.ID) :
    (b.ID ++ "_" ++ Weekly ++ "_" ++ fmtDate now ++ ".json",
     FileContent.report
       { ID := mkReportID b.ID Weekly (truncDay now), BoardID := b.ID, BoardName := b.Name,
         type := Weekly, Content := content, GeneratedAt := now,
         StartDate := addDate (truncDay now) 0 0 (-7), EndDate := truncDay now })
      ∈ (generateWeeklyReports env fs now).files := by
  simp only [generateWeeklyReports, hboards]
  exact runBoards_persists hf hg hw hpost

/-- C7 witness: board A's details fetch fails, board B's pipeline succeeds,
and after the weekly pass board B's report is persisted. -/
theorem board_failure_isolation_witness :
    ("B" ++ "_" ++ Weekly ++ "_" ++ fmtDate tMon ++ ".json",
     FileContent.report
       { ID := mkReportID "B" Weekly (truncDay tMon), BoardID := "B", BoardName := "Beta",
         type := Weekly, Content := "narrative text", GeneratedAt := tMon,
         StartDate := addDate (truncDay tMon) 0 0 (-7), EndDate := truncDay tMon })
      ∈ (generateWeeklyReports envAB ⟨[], []⟩ tMon).files :=
  board_failure_isolation envAB ⟨[], []⟩ tMon [bA] [] bB ⟨bB, [], [], [], []⟩ "narrative text"
    (by decide) (by decide) (by decide) (by decide) (by simp)

/-! ## C9: date windows -/

/-- C9: Date windows — the weekly pass persists reports covering
[trunc(now) − 7 days, trunc(now)] and the monthly pass reports covering
[trunc(now) − 1 month, trunc(now)], the period end being now truncated to
whole-day granularity; the on-demand path instead uses the precise
instant now as period end, with start now − 7 days for weekly and
now − 1 month otherwise. -/
theorem date_windows (env : AgentEnv) (fs : FS) (now : Time) :
    (∀ pre post b bd content,
      env.trello.boards = .ok (pre ++ b :: post) →
      GetBoardData env.trello b.ID (addDate (truncDay now) 0 0 (-7)) = .ok bd →
      env.gen bd Weekly = .ok content →
      fs.unwritable.contains (b.ID ++ "_" ++ Weekly ++ "_" ++ fmtDate now ++ ".json") = false →
      (∀ b2 ∈ post, b2.ID ≠ b.ID) →
      ∃ r : Report,
        (saveFilename r, FileContent.report r) ∈ (generateWeeklyReports env fs now).files ∧
        r.BoardID = b.ID ∧ r.type = Weekly ∧
        r.StartDate = addDate (truncDay now) 0 0 (-7) ∧ r.EndDate = truncDay now) ∧
    (∀ pre post b bd content,
      env.trello.boards = .ok (pre ++ b :: post) →
      GetBoardData env.trello b.ID (addDate (truncDay now) 0 (-1) 0) = .ok bd →
      env.gen bd Monthly = .ok content →
      fs.unwritable.contains (b.ID ++ "_" ++ Monthly ++ "_" ++ fmtDate now ++ ".json") = false →
      (∀ b2 ∈ post, b2.ID ≠ b.ID) →
      ∃ r : Report,
        (saveFilename r, FileContent.report r) ∈ (generateMonthlyReports env fs now).files ∧
        r.BoardID = b.ID ∧ r.type = Monthly ∧
        r.StartDate = addDate (truncDay now) 0 (-1) 0 ∧ r.EndDate = truncDay now) ∧
    (∀ boardID reportType fs2 r,
      GenerateReportOnDemand env fs boardID reportType now = .ok (fs2, r) →
      r.EndDate = now ∧
      r.StartDate = (if reportType = Weekly then addDate now 0 0 (-7) else addDate now 0 (-1) 0)) := by
  refine ⟨?_, ?_, ?_⟩
  · intro pre post b bd content hboards hf hg hw hpost
    refine ⟨⟨mkReportID b.ID Weekly (truncDay now), b.ID, b.Name, Weekly, content, now,
      addDate (truncDay now) 0 0 (-7), truncDay now⟩, ?_, rfl, rfl, rfl, rfl⟩
    simp only [generateWeeklyReports, hboards]
    exact runBoards_persists hf hg hw hpost
  · intro pre post b bd content hboards hf hg hw hpost
    refine ⟨⟨mkReportID b.ID Monthly (truncDay now), b.ID, b.Name, Monthly, content, now,
      addDate (truncDay now) 0 (-1) 0, truncDay now⟩, ?_, rfl, rfl, rfl, rfl⟩
    simp only [generateMonthlyReports, hboards]
    exact runBoards_persists hf hg hw hpost
  · intro boardID reportType fs2 r h
    simp only [GenerateReportOnDemand] at h
    split at h
    · cases h
    · split at h
      · cases h
      · split at h
        · cases h
        · split at h
          · cases h
          · injection h with h2
            injection h2 with h3 h4
            subst h4
            constructor
            · rfl
            · by_cases hty : reportType = Weekly <;> simp [hty]

/-- C9 witness: the on-demand path for board B at instant tTue yields a
report whose period end is exactly tTue and whose start is tTue − 7 days. -/
theorem date_windows_witness :
    rC9.EndDate = tTue ∧
    rC9.StartDate = (if Weekly = Weekly then addDate tTue 0 0 (-7) else addDate tTue 0 (-1) 0) :=
  (date_windows envAB ⟨[], []⟩ tTue).2.2 "B" Weekly fsC9s rC9 (by decide)

/-! ## C8: scan tolerance of getByID -/

/-- C8: Scan tolerance — GetReport does not fail because of unreadable,
empty, or malformed files in the directory: whatever junk the store
contains, it skips them and still returns the stored report whose
embedded ID matches (unique among the readable reports). -/
theorem scan_tolerance (fs : FS) (id nm : String) (r : Report)
    (hmem : (nm, FileContent.report r) ∈ fs.files) (hid : r.ID = id)
    (huniq : ∀ e ∈ fs.files, ∀ r2, e.2 = FileContent.report r2 → r2.ID = id → r2 = r) :
    GetReport fs id = .ok r := by
  unfold GetReport
  rw [scanForReport_eq (r := r) ⟨(nm, FileContent.report r), mem_sortByName.mpr hmem, rfl⟩ hid
    (fun e he => huniq e (mem_sortByName.mp he))]

/-- C8 witness: a directory with an empty file and an unreadable file next
to the stored report; GetReport still finds the report. -/
theorem scan_tolerance_witness : GetReport fsC8 "B3_monthly_2024-02-01" = .ok rC8 :=
  scan_tolerance fsC8 "B3_monthly_2024-02-01" "B3_monthly_2024-02-01.json" rC8
    (by decide) (by decide)
    (by
      intro e he r2 h2 hid2
      simp only [fsC8] at he
      rcases List.mem_cons.mp he with he1 | he
      · subst he1; simp at h2
      rcases List.mem_cons.mp he with he1 | he
      · subst he1; simp at h2
      rcases List.mem_cons.mp he with he1 | he
      · subst he1
        simp only at h2
        injection h2 with h3
        exact h3.symm
      · cases he)

/-! ## Helper lemmas about the glob matcher -/

theorem globMatchAux_congr : ∀ (f1 f2 : Nat) (p s : List Char),
    p.length + s.length < f1 → p.length + s.length < f2 →
    globMatchAux f1 p s = globMatchAux f2 p s := by
  intro f1
  induction f1 with
  | zero => intro f2 p s h1 _; exact absurd h1 (Nat.not_lt_zero _)
  | succ f ih =>
    intro f2 p s h1 h2
    cases f2 with
    | zero => exact absurd h2 (Nat.not_lt_zero _)
    | succ g =>
      cases p with
      | nil =>
        cases s with
        | nil => rfl
        | cons c cs => rfl
      | cons p0 ps =>
        cases s with
        | nil =>
          simp only [globMatchAux]
          rw [ih g ps [] (by simp at h1 ⊢; omega) (by simp at h2 ⊢; omega)]
        | cons c cs =>
          simp only [globMatchAux]
          by_cases hstar : (p0 == '*') = true
          · rw [if_pos hstar, if_pos hstar,
              ih g ps (c :: cs) (by simp at h1 ⊢; omega) (by simp at h2 ⊢; omega),
              ih g (p0 :: ps) cs (by simp at h1 ⊢; omega) (by simp at h2 ⊢; omega)]
          · rw [if_neg hstar, if_neg hstar]
            by_cases hq : (p0 == '?') = true
            · rw [if_pos hq, if_pos hq,
                ih g ps cs (by simp at h1 ⊢; omega) (by simp at h2 ⊢; omega)]
            · rw [if_neg hq, if_neg hq,
                ih g ps cs (by simp at h1 ⊢; omega) (by simp at h2 ⊢; omega)]

theorem globMatchAux_eq_globMatch (f : Nat) (p s : List Char)
    (h : p.length + s.length < f) : globMatchAux f p s = globMatch p s :=
  globMatchAux_congr f (p.length + s.length + 1) p s h (Nat.lt_succ_self _)

theorem globMatch_cons_nil (p : Char) (ps : List Char) :
    globMatch (p :: ps) [] = (p == '*' && globMatch ps []) := rfl

theorem globMatch_cons_cons (p : Char) (ps : List Char) (c : Char) (cs : List Char) :
    globMatch (p :: ps) (c :: cs) =
      (if p == '*' then globMatch ps (c :: cs) || globMatch (p :: ps) cs
       else if p == '?' then globMatch ps cs
       else p == c && globMatch ps cs) := by
  show globMatchAux ((p :: ps).length + (c :: cs).length + 1) (p :: ps) (c :: cs) = _
  have hlen : (p :: ps).length + (c :: cs).length + 1
      = (ps.length + cs.length + 2) + 1 := by simp; omega
  rw [hlen]
  simp only [globMatchAux]
  rw [globMatchAux_eq_globMatch _ ps (c :: cs) (by simp; omega),
    globMatchAux_eq_globMatch _ (p :: ps) cs (by simp; omega),
    globMatchAux_eq_globMatch _ ps cs (by simp)]

theorem globMatch_star {ps s : List Char} (h : globMatch ('*' :: ps) s = true) :
    ∃ s1 s2, s = s1 ++ s2 ∧ globMatch ps s2 = true := by
  induction s with
  | nil =>
    refine ⟨[], [], rfl, ?_⟩
    rw [globMatch_cons_nil] at h
    simpa using h
  | cons c cs ih =>
    rw [globMatch_cons_cons, if_pos (by rfl), Bool.or_eq_true] at h
    rcases h with h1 | h2
    · exact ⟨[], c :: cs, rfl, h1⟩
    · obtain ⟨s1, s2, heq, hm⟩ := ih h2
      exact ⟨c :: s1, s2, by simp [heq], hm⟩

theorem globMatch_lit {lit p s : List Char}
    (hmeta : ∀ ch ∈ lit, ch ≠ '*' ∧ ch ≠ '?')
    (h : globMatch (lit ++ p) s = true) :
    ∃ s2, s = lit ++ s2 ∧ globMatch p s2 = true := by
  induction lit generalizing s with
  | nil => exact ⟨s, rfl, h⟩
  | cons c0 lit0 ih =>
    cases s with
    | nil =>
      rw [List.cons_append, globMatch_cons_nil] at h
      have hm := (hmeta c0 (by simp)).1
      simp [hm] at h
    | cons d ds =>
      rw [List.cons_append, globMatch_cons_cons,
        if_neg (by simp [(hmeta c0 (by simp)).1]),
        if_neg (by simp [(hmeta c0 (by simp)).2])] at h
      rw [Bool.and_eq_true] at h
      obtain ⟨hcd, hrest⟩ := h
      have hd : c0 = d := by simpa using hcd
      obtain ⟨s2, heq, hmm⟩ := ih (fun ch hch => hmeta ch (by simp [hch])) hrest
      exact ⟨s2, by rw [List.cons_append, ← hd, heq], hmm⟩

theorem containsSeg_of_parts (a needle b : List Char) :
    containsSeg needle (a ++ needle ++ b) = true := by
  induction a with
  | nil =>
    cases needle with
    | nil =>
      cases b with
      | nil => rfl
      | cons c cs => simp [containsSeg, List.isPrefixOf]
    | cons n ns =>
      simp only [List.nil_append, List.cons_append, containsSeg]
      rw [Bool.or_eq_true]
      left
      rw [List.isPrefixOf_iff_prefix]
      exact ⟨b, by simp⟩
  | cons x xs ih =>
    simp only [List.cons_append, containsSeg]
    rw [Bool.or_eq_true]
    exact Or.inr ih

/-! ## C10: empty query results are not errors -/

/-- C10: Empty query results are not errors — when no stored file's name
begins with the board ID, GetReportsByBoard returns the empty list with no
error, and when no stored file's name contains the underscore-delimited
type segment, GetReportsByType returns the empty list with no error (the
board ID and type are assumed free of glob metacharacters). -/
theorem empty_query_results (s : FS) (B T : String)
    (hBm : ∀ ch ∈ B.data, ch ≠ '*' ∧ ch ≠ '?')
    (hTm : ∀ ch ∈ T.data, ch ≠ '*' ∧ ch ≠ '?')
    (hB : ∀ e ∈ s.files, B.data.isPrefixOf e.1.data = false)
    (hT : ∀ e ∈ s.files, containsSeg ("_" ++ T ++ "_").data e.1.data = false) :
    GetReportsByBoard s B = .ok [] ∧ GetReportsByType s T = .ok [] := by
  constructor
  · simp only [GetReportsByBoard]
    have hempty : (sortByName s.files).filter
        (fun e => globMatch (B ++ "_*.json").data e.1.data) = [] := by
      rw [List.filter_eq_nil_iff]
      intro e he hmatch
      have hdata : (B ++ "_*.json").data
          = B.data ++ ('_' :: '*' :: '.' :: 'j' :: 's' :: 'o' :: 'n' :: []) := by
        rw [String.data_append]
      rw [hdata] at hmatch
      obtain ⟨s2, heq, _⟩ := globMatch_lit hBm hmatch
      have hpre : B.data.isPrefixOf e.1.data = true := by
        rw [List.isPrefixOf_iff_prefix, heq]
        exact List.prefix_append B.data s2
      rw [hB e (mem_sortByName.mp he)] at hpre
      cases hpre
    rw [hempty]
    rfl
  · simp only [GetReportsByType]
    have hempty : (sortByName s.files).filter
        (fun e => globMatch ("*_" ++ T ++ "_*.json").data e.1.data) = [] := by
      rw [List.filter_eq_nil_iff]
      intro e he hmatch
      have hdata : ("*_" ++ T ++ "_*.json").data
          = '*' :: (("_" ++ T ++ "_").data ++ ('*' :: '.' :: 'j' :: 's' :: 'o' :: 'n' :: [])) := by
        simp [String.data_append, List.append_assoc]
      rw [hdata] at hmatch
      obtain ⟨s1, s2, heq, hm2⟩ := globMatch_star hmatch
      have hsegmeta : ∀ ch ∈ ("_" ++ T ++ "_").data, ch ≠ '*' ∧ ch ≠ '?' := by
        intro ch hch
        simp only [String.data_append] at hch
        rcases List.mem_append.mp hch with h1 | h1
        · rcases List.mem_append.mp h1 with h2 | h2
          · simp at h2; subst h2; exact ⟨by decide, by decide⟩
          · exact hTm ch h2
        · simp at h1; subst h1; exact ⟨by decide, by decide⟩
      obtain ⟨s3, heq2, _⟩ := globMatch_lit hsegmeta hm2
      have hseg : containsSeg ("_" ++ T ++ "_").data e.1.data = true := by
        rw [heq, heq2, ← List.append_assoc]
        exact containsSeg_of_parts s1 _ s3
      rw [hT e (mem_sortByName.mp he)] at hseg
      cases hseg
    rw [hempty]
    rfl

/-- C10 witness: a store whose files start with A1 and contain weekly
segments only; queries for board B9 and type quarterly both return the
empty list without error. -/
theorem empty_query_results_witness :
    GetReportsByBoard fsC10 "B9" = .ok [] ∧ GetReportsByType fsC10 "quarterly" = .ok [] :=
  empty_query_results fsC10 "B9" "quarterly" (by decide) (by decide) (by decide) (by decide)
